import Mathlib

/-!
Verification development for the txt→UTF-8 converter repository.

The repository contains two near-duplicate implementations of the same
`Converter` class: `convertor.py` (asyncio-based; this is the module imported
by `main.py`, hence the live program) and `converter.py` (an earlier
thread-pool prototype of the same class).  Both are embedded below where the
claims touch them: shared pure helpers first, then the live module under
namespace `Convertor` and the prototype under namespace `ConverterProto`.

Bytes are modelled as `Nat` (< 256 in every real input) and decoded text as
lists of Unicode code points (`Nat`).  Filesystem state is an explicit record
of file contents and existing directories; paths are lists of components,
mirroring `pathlib.Path` semantics for `name`, `suffix` and `parent`.
-/

/-- Lower bound on the first continuation byte of a 3-byte sequence
(0xE0 forbids overlong encodings, so it requires 0xA0). -/
def cont3lo (b : Nat) : Nat := if b = 0xE0 then 0xA0 else 0x80

/-- Upper bound on the first continuation byte of a 3-byte sequence
(0xED forbids surrogates, so it allows at most 0x9F). -/
def cont3hi (b : Nat) : Nat := if b = 0xED then 0x9F else 0xBF

/-- Lower bound on the first continuation byte of a 4-byte sequence. -/
def cont4lo (b : Nat) : Nat := if b = 0xF0 then 0x90 else 0x80

/-- Upper bound on the first continuation byte of a 4-byte sequence
(0xF4 caps code points at U+10FFFF). -/
def cont4hi (b : Nat) : Nat := if b = 0xF4 then 0x8F else 0xBF

/-- One UTF-8 code point strictly decoded from lead byte `b` followed by
`rest`, as CPython's `utf-8` codec with default (strict) error handling:
`some (cp, r)` yields the code point and the unconsumed bytes, `none` models
a raised `UnicodeDecodeError`.  Overlong forms, surrogates, out-of-range
leads and truncated sequences are all rejected. -/
def utf8_decode1 (b : Nat) (rest : List Nat) : Option (Nat × List Nat) :=
  if b ≤ 0x7F then some (b, rest)
  else if 0xC2 ≤ b ∧ b ≤ 0xDF then
    match rest with
    | c1 :: r =>
      if 0x80 ≤ c1 ∧ c1 ≤ 0xBF then some ((b - 0xC0) * 64 + (c1 - 0x80), r) else none
    | [] => none
  else if 0xE0 ≤ b ∧ b ≤ 0xEF then
    match rest with
    | c1 :: c2 :: r =>
      if (cont3lo b ≤ c1 ∧ c1 ≤ cont3hi b) ∧ 0x80 ≤ c2 ∧ c2 ≤ 0xBF then
        some ((b - 0xE0) * 4096 + (c1 - 0x80) * 64 + (c2 - 0x80), r)
      else none
    | _ => none
  else if 0xF0 ≤ b ∧ b ≤ 0xF4 then
    match rest with
    | c1 :: c2 :: c3 :: r =>
      if (cont4lo b ≤ c1 ∧ c1 ≤ cont4hi b) ∧ (0x80 ≤ c2 ∧ c2 ≤ 0xBF) ∧
          (0x80 ≤ c3 ∧ c3 ≤ 0xBF) then
        some ((b - 0xF0) * 262144 + (c1 - 0x80) * 4096 + (c2 - 0x80) * 64 + (c3 - 0x80), r)
      else none
    | _ => none
  else none

/-- Strict UTF-8 decoding loop.  The fuel argument only drives structural
recursion; each step consumes at least the lead byte, so fuel equal to the
input length (as supplied by `utf8_decode_strict`) never runs out. -/
def utf8_decode_go : Nat → List Nat → Option (List Nat)
  | _, [] => some []
  | 0, _ :: _ => none
  | fuel + 1, b :: rest =>
    match utf8_decode1 b rest with
    | none => none
    | some (cp, r) => (utf8_decode_go fuel r).map (fun t => cp :: t)

/-- Strict UTF-8 decoding of a whole byte list. -/
def utf8_decode_strict (l : List Nat) : Option (List Nat) := utf8_decode_go l.length l

/-- One step of UTF-8 decoding with the `replace` error handler: a maximal
invalid subpart becomes one U+FFFD and decoding resumes at the offending
byte, as in CPython's `errors="replace"`. -/
def utf8_step_replace (b : Nat) (rest : List Nat) : Nat × List Nat :=
  if b ≤ 0x7F then (b, rest)
  else if 0xC2 ≤ b ∧ b ≤ 0xDF then
    match rest with
    | c1 :: r =>
      if 0x80 ≤ c1 ∧ c1 ≤ 0xBF then ((b - 0xC0) * 64 + (c1 - 0x80), r)
      else (0xFFFD, c1 :: r)
    | [] => (0xFFFD, [])
  else if 0xE0 ≤ b ∧ b ≤ 0xEF then
    match rest with
    | c1 :: r =>
      if cont3lo b ≤ c1 ∧ c1 ≤ cont3hi b then
        match r with
        | c2 :: r2 =>
          if 0x80 ≤ c2 ∧ c2 ≤ 0xBF then
            ((b - 0xE0) * 4096 + (c1 - 0x80) * 64 + (c2 - 0x80), r2)
          else (0xFFFD, c2 :: r2)
        | [] => (0xFFFD, [])
      else (0xFFFD, c1 :: r)
    | [] => (0xFFFD, [])
  else if 0xF0 ≤ b ∧ b ≤ 0xF4 then
    match rest with
    | c1 :: r =>
      if cont4lo b ≤ c1 ∧ c1 ≤ cont4hi b then
        match r with
        | c2 :: r2 =>
          if 0x80 ≤ c2 ∧ c2 ≤ 0xBF then
            match r2 with
            | c3 :: r3 =>
              if 0x80 ≤ c3 ∧ c3 ≤ 0xBF then
                ((b - 0xF0) * 262144 + (c1 - 0x80) * 4096 + (c2 - 0x80) * 64 + (c3 - 0x80), r3)
              else (0xFFFD, c3 :: r3)
            | [] => (0xFFFD, [])
          else (0xFFFD, c2 :: r2)
        | [] => (0xFFFD, [])
      else (0xFFFD, c1 :: r)
    | [] => (0xFFFD, [])
  else (0xFFFD, rest)

/-- Replacing UTF-8 decoding loop (fuelled as `utf8_decode_go`). -/
def utf8_decode_replace_go : Nat → List Nat → List Nat
  | _, [] => []
  | 0, _ :: _ => []
  | fuel + 1, b :: rest =>
    (utf8_step_replace b rest).1 ::
      utf8_decode_replace_go fuel (utf8_step_replace b rest).2

/-- UTF-8 decoding of a whole byte list with the `replace` error handler;
total, as `errors="replace"` never raises. -/
def utf8_decode_replace (l : List Nat) : List Nat := utf8_decode_replace_go l.length l

/-- UTF-8 encoding of a single code point. -/
def utf8EncodeChar (c : Nat) : List Nat :=
  if c ≤ 0x7F then [c]
  else if c ≤ 0x7FF then [0xC0 + c / 64, 0x80 + c % 64]
  else if c ≤ 0xFFFF then [0xE0 + c / 4096, 0x80 + (c / 64) % 64, 0x80 + c % 64]
  else [0xF0 + c / 262144, 0x80 + (c / 4096) % 64, 0x80 + (c / 64) % 64, 0x80 + c % 64]

/-- UTF-8 encoding of a code-point list; Python's `utf-8` text writer never
prepends a byte-order mark. -/
def utf8Encode (cps : List Nat) : List Nat := cps.flatMap utf8EncodeChar

/-- The UTF-8 byte-order mark. -/
def bomBytes : List Nat := [0xEF, 0xBB, 0xBF]

/-- Strip one leading UTF-8 byte-order mark, if present (the preprocessing
step of Python's `utf-8-sig` codec on decode). -/
def stripBom : List Nat → List Nat
  | 0xEF :: 0xBB :: 0xBF :: r => r
  | bs => bs

/-- Strict decoding with the `utf-8-sig` codec: strip one leading BOM, then
strict UTF-8 decode. -/
def utf8_sig_decode_strict (bs : List Nat) : Option (List Nat) :=
  utf8_decode_strict (stripBom bs)

/-- The `latin-1` codec maps every byte to the same code point and can never
fail on any byte sequence. -/
def latin1_decode (bs : List Nat) : Option (List Nat) := some bs

/-- Code points for cp1251 bytes 0x80–0xBF (index 0x18, byte 0x98, is the one
unassigned byte of cp1251; the 0 entry there is a sentinel that is never
reached because `cp1251_decode_strict` rejects 0x98 first). -/
def cp1251_high : List Nat :=
  [0x0402, 0x0403, 0x201A, 0x0453, 0x201E, 0x2026, 0x2020, 0x2021,
   0x20AC, 0x2030, 0x0409, 0x2039, 0x040A, 0x040C, 0x040B, 0x040F,
   0x0452, 0x2018, 0x2019, 0x201C, 0x201D, 0x2022, 0x2013, 0x2014,
   0x0000, 0x2122, 0x0459, 0x203A, 0x045A, 0x045C, 0x045B, 0x045F,
   0x00A0, 0x040E, 0x045E, 0x0408, 0x00A4, 0x0490, 0x00A6, 0x00A7,
   0x0401, 0x00A9, 0x0404, 0x00AB, 0x00AC, 0x00AD, 0x00AE, 0x0407,
   0x00B0, 0x00B1, 0x0406, 0x0456, 0x0491, 0x00B5, 0x00B6, 0x00B7,
   0x0451, 0x2116, 0x0454, 0x00BB, 0x0458, 0x0405, 0x0455, 0x0457]

/-- Strict cp1251 decoding: fails exactly when the input contains byte 0x98,
the only byte position left unassigned by Windows-1251. -/
def cp1251_decode_strict (bs : List Nat) : Option (List Nat) :=
  if bs.contains 0x98 then none
  else some (bs.map (fun b =>
    if b < 0x80 then b
    else if 0xC0 ≤ b then 0x410 + (b - 0xC0)
    else cp1251_high.getD (b - 0x80) 0))

/-- Lower-case a string character-wise, as Python `str.lower` does on the
ASCII encoding names this program handles. -/
def strLower (s : String) : String := String.mk (s.data.map Char.toLower)

/-- String suffix test over the underlying character lists, as the fnmatch
pattern `*.txt` tests file names (`*` may match the empty string). -/
def strEndsWith (s suf : String) : Bool := suf.data.isSuffixOf s.data

/-- Containment of a character sequence, as Python's `in` on strings. -/
def containsSeq (needle hay : List Char) : Bool :=
  hay.tails.any (fun t => needle.isPrefixOf t)

/-- Normalisation `source_enc.lower().replace("_", "-")` from
`Converter.convert` in convertor.py. -/
def pyNormalizeEnc (s : String) : List Char :=
  s.data.map (fun c => let c' := c.toLower; if c' = '_' then '-' else c')

/-- The test `"utf-8" in source_enc.lower().replace("_", "-")` from
`Converter.convert` in convertor.py. -/
def isUtf8Family (enc : String) : Bool := containsSeq "utf-8".data (pyNormalizeEnc enc)

/-- Stream-encoding selection in `Converter.convert` (convertor.py): any
detected UTF-8 family label is decoded through the `utf-8-sig` codec. -/
def stream_enc (enc : String) : String :=
  if isUtf8Family enc then "utf-8-sig" else enc

/-- Paths are lists of components, as a relative `pathlib.Path`. -/
abbrev Pth := List String

/-- `Path.name`: the final component (empty for the empty path). -/
def pname (p : Pth) : String := p.getLastD ""

/-- `PurePath.suffix` of one name: the final dot-suffix, empty when the only
dot is leading (hidden files) or trailing, per CPython
`i = name.rfind('.'); return name[i:] if 0 < i < len(name) - 1 else ''`. -/
def suffixOfName (nm : String) : String :=
  let cs := nm.data
  match cs.reverse.findIdx? (fun c => c = '.') with
  | none => ""
  | some k =>
    let i := cs.length - 1 - k
    if 0 < i ∧ i < cs.length - 1 then String.mk (cs.drop i) else ""

/-- `Path.suffix` of a path. -/
def psuffix (p : Pth) : String := suffixOfName (pname p)

/-- `path.suffix.lower()`, the case-insensitive extension used by
`_ensure_input_txt` and the file-root branch of `_collect_txt_files`. -/
def suffixLower (p : Pth) : String := strLower (psuffix p)

/-- Rendering of a path as text (for `str(e)` error messages). -/
def pathStr (p : Pth) : String := String.intercalate "/" p

/-- Filesystem state: regular files with contents, and existing directories. -/
structure FS where
  files : List (Pth × List Nat)
  dirs : List Pth
deriving DecidableEq, Repr

/-- Contents of a regular file, when present. -/
def lookupFile (fs : FS) (p : Pth) : Option (List Nat) :=
  (fs.files.find? (fun e => e.1 == p)).map (·.2)

/-- `Path.is_file()`. -/
def isFile (fs : FS) (p : Pth) : Bool := (lookupFile fs p).isSome

/-- `Path.is_dir()`. -/
def isDir (fs : FS) (p : Pth) : Bool := fs.dirs.contains p

/-- `Path.exists()`. -/
def pexists (fs : FS) (p : Pth) : Bool := isFile fs p || isDir fs p

/-- All nonempty ancestors of a path, including the path itself. -/
def prefixesOf (p : Pth) : List Pth :=
  (List.range p.length).map (fun k => p.take (k + 1))

/-- `p.mkdir(parents=True, exist_ok=True)`: the path and all ancestors become
directories. -/
def mkdirp (fs : FS) (p : Pth) : FS := { fs with dirs := prefixesOf p ++ fs.dirs }

/-- Create or truncate-and-write a regular file. -/
def writeFile (fs : FS) (p : Pth) (bytes : List Nat) : FS :=
  { fs with files := (p, bytes) :: fs.files.filter (fun e => !(e.1 == p)) }

/-- Data-transfer events, used to show which paths a call actually read or
wrote (metadata checks such as `exists()` are not data transfers). -/
inductive Event where
  | readData (p : Pth)
  | writeData (p : Pth)
deriving DecidableEq, Repr

/-- Error kinds raised by the converter (§7 of the specification). -/
inductive ConvError where
  | notFound
  | unsupportedType
  | alreadyExists
  | detectFailed
  | noInputFiles
  | decodeError
deriving DecidableEq, Repr

/-- `ConversionReport` from models.py. -/
structure ConversionReport where
  input_path : Pth
  output_path : Pth
  detected_encoding : String
  confidence : ℚ
  bytes_in : Nat
  bytes_out : Nat
deriving DecidableEq, Repr

/-- `BatchItemResult` from models.py. -/
structure BatchItemResult where
  path : Pth
  ok : Bool
  report : Option ConversionReport
  error : Option String
deriving DecidableEq, Repr

/-- Read-side newline handling of a Python text stream: only the default
`newline=None` applies universal-newline translation; any explicit argument
(`""`, `"\n"`, `"\r"`, `"\r\n"`) leaves `read()` output untranslated. -/
def universal_nl : List Nat → List Nat
  | [] => []
  | 13 :: 10 :: r => 10 :: universal_nl r
  | 13 :: r => 10 :: universal_nl r
  | c :: r => c :: universal_nl r

/-- Newline translation applied by `read()` for a given `newline` argument. -/
def nl_translate_read : Option String → List Nat → List Nat
  | none, cps => universal_nl cps
  | some _, cps => cps

/-- Newline translation applied by `write()` for a given `newline` argument
and platform line separator: `newline=None` maps LF to the separator;
`newline=""` and `newline="\n"` translate nothing; other legal values replace
LF with themselves. -/
def nl_translate_write (arg : Option String) (linesep : List Nat)
    (cps : List Nat) : List Nat :=
  match arg with
  | none => cps.flatMap (fun c => if c = 10 then linesep else [c])
  | some s =>
    if s = "" ∨ s = "\n" then cps
    else cps.flatMap (fun c => if c = 10 then s.data.map Char.toNat else [c])

/-- Codec lookup for the encoding names this program's own detector can emit
on the byte-exact paths the claims exercise; codecs outside that set are not
modelled (`none` for every input). -/
def codec_for (enc : String) : List Nat → Option (List Nat) :=
  if enc = "utf-8-sig" then utf8_sig_decode_strict
  else if enc = "utf-8" then utf8_decode_strict
  else if enc = "cp1251" then cp1251_decode_strict
  else if enc = "latin-1" then latin1_decode
  else fun _ => none

namespace Convertor

/-- `DETECT_MAX_BYTES` from convertor.py. -/
def DETECT_MAX_BYTES : Nat := 1 * 1024 * 1024

/-- The statistical classifier (`charset_normalizer.from_bytes(...).best()`)
is an external black box; it is a parameter of the model.  `some (e, c)`
models a best match with truthy `encoding` attribute `e` and the value read
by `float(getattr(match, "confidence", 0.0))`; `none` models a missing match
or falsy encoding. -/
abbrev Classifier := List Nat → Option (String × ℚ)

/-- `Converter._detect_encoding` (convertor.py): classify a capped sample;
raise `ValueError` (here `none`) when there is no usable match — the strict
detector policy, with no fallback chain. -/
def detect_encoding (classify : Classifier) (content : List Nat) :
    Option (String × ℚ) :=
  classify (content.take DETECT_MAX_BYTES)

/-- `Converter._stream_copy` (convertor.py): a whole-stream rendering of the
chunked loop.  The reader is `TextIOWrapper(raw_in, encoding=src, newline="")`
with DEFAULT (strict) error handling, so an undecodable byte raises (`none`);
the writer is UTF-8 with `newline=""`.  On success it returns the output
bytes together with `raw_in.tell()` at end of file, i.e. the input length.
Chunking at `READ_CHARS` never changes the decoded stream, so it is not
represented. -/
def stream_copy (dec : List Nat → Option (List Nat)) (bs : List Nat) :
    Option (List Nat × Nat) :=
  match dec bs with
  | none => none
  | some cps =>
    some (utf8Encode (nl_translate_write (some "") [10]
            (nl_translate_read (some "") cps)), bs.length)

/-- `Converter._ensure_input_txt`, `Converter._make_output_path` and
`Converter.convert` (convertor.py), over the explicit filesystem.  The result
carries the error (with the `str(e)` text) or the report, the filesystem as
left by the call, and the data-transfer events that occurred.  The partial
contents of an output file truncated before a mid-stream decode error are
abstracted as empty. -/
def make_output_path (input_path output_spec : Pth) (expect_dir : Bool)
    (fs : FS) : Pth :=
  if expect_dir then
    (if psuffix output_spec = "" then output_spec else output_spec.dropLast)
      ++ [pname input_path]
  else if psuffix output_spec = "" || isDir fs output_spec then
    output_spec ++ [pname input_path]
  else output_spec

/-- `Converter.convert` (convertor.py), see `make_output_path`. -/
def convert (classify : Classifier) (fs : FS) (input_path output_path : Pth)
    (overwrite : Bool) :
    Except (ConvError × String) ConversionReport × FS × List Event :=
  if !(isFile fs input_path) then
    (.error (.notFound, pathStr input_path), fs, [])
  else if !(suffixLower input_path == ".txt") then
    (.error (.unsupportedType, "Only .txt files are supported"), fs, [])
  else
    let out := make_output_path input_path output_path false fs
    if pexists fs out && !overwrite then
      (.error (.alreadyExists, "Output exists: " ++ pathStr out), fs, [])
    else
      let fs1 := mkdirp fs out.dropLast
      let content := (lookupFile fs input_path).getD []
      match detect_encoding classify content with
      | none =>
        (.error (.detectFailed, "Failed to detect text encoding (file may be binary)"),
         fs1, [.readData input_path])
      | some (source_enc, enc_conf) =>
        match stream_copy (codec_for (stream_enc source_enc)) content with
        | none =>
          (.error (.decodeError, "UnicodeDecodeError"),
           writeFile fs1 out [], [.readData input_path, .readData input_path, .writeData out])
        | some (outBytes, bytes_in) =>
          (.ok { input_path := input_path, output_path := out,
                 detected_encoding := source_enc, confidence := enc_conf,
                 bytes_in := bytes_in, bytes_out := outBytes.length },
           writeFile fs1 out outBytes,
           [.readData input_path, .readData input_path, .writeData out])

/-- The fnmatch test applied by `root.glob("*.txt")` (direct children) or
`root.glob("**/*.txt")` (any depth below the root): glob is case-sensitive on
POSIX, so the name must literally end in `.txt`. -/
def glob_txt_match (root : Pth) (recursive : Bool) (p : Pth) : Bool :=
  (if recursive then root.isPrefixOf p && decide (root.length < p.length)
   else !p.isEmpty && p.dropLast == root)
  && strEndsWith (pname p) ".txt"

/-- `Converter._collect_txt_files`: raise `FileNotFoundError` for a missing
root; a file root is a candidate iff its extension is `.txt`
case-insensitively; a directory root is globbed (case-sensitively) and the
matches filtered to regular files. -/
def collect_txt_files (fs : FS) (root : Pth) (recursive : Bool) :
    Except (ConvError × String) (List Pth) :=
  if !(pexists fs root) then .error (.notFound, pathStr root)
  else if isFile fs root then
    .ok (if suffixLower root == ".txt" then [root] else [])
  else
    .ok ((fs.files.filter (fun e => glob_txt_match root recursive e.1)).map (·.1))

/-- One batch item (`run_one` in `Converter.batch_convert`): the conversion
runs with the output spec resolved as a directory target, and EVERY exception
is caught and turned into a failed `BatchItemResult` carrying `str(e)`. -/
def run_one (classify : Classifier) (fs : FS) (out_dir : Pth)
    (overwrite : Bool) (p : Pth) : BatchItemResult × FS :=
  match convert classify fs p (make_output_path p out_dir true fs) overwrite with
  | (.ok rep, fs', _) => ({ path := p, ok := true, report := some rep, error := none }, fs')
  | (.error (_, msg), fs', _) => ({ path := p, ok := false, report := none, error := some msg }, fs')

/-- The batch loop over the discovered candidates.  `as_completed` delivers
results in completion order, which is not modelled: this is the schedule in
which conversions run one at a time in discovery order (one legal schedule of
the gated pool; the claims proved below do not depend on delivery order). -/
def run_batch (classify : Classifier) (out_dir : Pth) (overwrite : Bool) :
    List Pth → FS → List BatchItemResult × FS
  | [], fs => ([], fs)
  | p :: ps, fs =>
    let (r, fs') := run_one classify fs out_dir overwrite p
    let (rs, fs'') := run_batch classify out_dir overwrite ps fs'
    (r :: rs, fs'')

/-- `max(1, workers)`, the value passed to `Semaphore` in
`Converter.batch_convert` (convertor.py line 71). -/
def sem_limit (workers : Int) : Int := max 1 workers

/-- `Converter.batch_convert` (convertor.py): discover, hard-stop on an empty
candidate set BEFORE creating the output directory, then create it and run
every candidate under the gate. -/
def batch_convert (classify : Classifier) (fs : FS) (inputs_root output_dir : Pth)
    (overwrite : Bool) (workers : Int) (recursive : Bool) :
    Except (ConvError × String) (List BatchItemResult) × FS :=
  match collect_txt_files fs inputs_root recursive with
  | .error e => (.error e, fs)
  | .ok files =>
    if files.isEmpty then (.error (.noInputFiles, "No .txt files found for batch"), fs)
    else
      let _limit := sem_limit workers
      let fs1 := mkdirp fs output_dir
      let (rs, fs2) := run_batch classify output_dir overwrite files fs1
      (.ok rs, fs2)

end Convertor

namespace ConverterProto

/-- The fallback list of `Converter._detect_encoding` (converter.py). -/
def fallback_encodings : List String := ["utf-8-sig", "utf-8", "cp1251", "latin-1"]

/-- Success of `sample.decode(encoding)` for the encodings in the fallback
list (`latin-1` decodes every byte sequence). -/
def decodes (enc : String) (bs : List Nat) : Bool :=
  if enc = "utf-8-sig" then (utf8_sig_decode_strict bs).isSome
  else if enc = "utf-8" then (utf8_decode_strict bs).isSome
  else if enc = "cp1251" then (cp1251_decode_strict bs).isSome
  else if enc = "latin-1" then (latin1_decode bs).isSome
  else false

/-- `Converter._detect_encoding` (converter.py): the always-succeed policy.
A classifier best match with a truthy encoding is returned at confidence 0.8;
otherwise the sample is strict-decoded against the ordered fallback list and
the first success returned at 0.8; if the whole loop fails, latin-1 at 0.5. -/
def detect_encoding (classify : List Nat → Option (String × ℚ))
    (sample : List Nat) : String × ℚ :=
  match classify sample with
  | some (e, _) => (e, 4/5)
  | none =>
    match fallback_encodings.find? (fun e => decodes e sample) with
    | some e => (e, 4/5)
    | none => ("latin-1", 1/2)

/-- `Converter._stream_copy` (converter.py): the reader is
`open("r", encoding=src, errors="replace")` — universal newlines, replacement
on invalid bytes, so decoding is total — and the writer is UTF-8 with default
newline handling (LF maps to `os.linesep`, `[10]` on POSIX).  It returns the
input's size in bytes. -/
def stream_copy (dec_replace : List Nat → List Nat) (bs : List Nat) :
    List Nat × Nat :=
  (utf8Encode (nl_translate_write none [10] (nl_translate_read none (dec_replace bs))),
   bs.length)

end ConverterProto

/-- State of the bounded concurrency gate of `batch_convert`: counts of
queued, in-flight and completed conversions. -/
structure GateState where
  waiting : Nat
  running : Nat
  done : Nat
deriving DecidableEq, Repr

/-- Steps of the semaphore-gated pool (`asyncio.Semaphore` semantics): a
queued conversion may start only while fewer than `limit` are in flight; an
in-flight conversion may finish at any time. -/
inductive GateStep (limit : Nat) : GateState → GateState → Prop
  | start (w r d : Nat) : r < limit → GateStep limit ⟨w + 1, r, d⟩ ⟨w, r + 1, d⟩
  | finish (w r d : Nat) : GateStep limit ⟨w, r + 1, d⟩ ⟨w, r, d + 1⟩

/-- States reachable by the gated pool from `n` queued conversions. -/
inductive GateReach (limit n : Nat) : GateState → Prop
  | init : GateReach limit n ⟨n, 0, 0⟩
  | step {s t : GateState} : GateReach limit n s → GateStep limit s t → GateReach limit n t

/-! ### Shared lemmas about the UTF-8 codec model -/

theorem utf8_decode1_len {b : Nat} {rest : List Nat} {cp : Nat} {r : List Nat}
    (h : utf8_decode1 b rest = some (cp, r)) : r.length ≤ rest.length := by
  unfold utf8_decode1 at h
  split at h
  · injection h with h; rw [Prod.mk.injEq] at h; obtain ⟨-, rfl⟩ := h; simp
  · split at h
    · split at h
      · split at h
        · injection h with h; rw [Prod.mk.injEq] at h; obtain ⟨-, rfl⟩ := h; simp
        · exact absurd h (by simp)
      · exact absurd h (by simp)
    · split at h
      · split at h
        · split at h
          · injection h with h; rw [Prod.mk.injEq] at h; obtain ⟨-, rfl⟩ := h
            simp; omega
          · exact absurd h (by simp)
        · exact absurd h (by simp)
      · split at h
        · split at h
          · split at h
            · injection h with h; rw [Prod.mk.injEq] at h; obtain ⟨-, rfl⟩ := h
              simp; omega
            · exact absurd h (by simp)
          · exact absurd h (by simp)
        · exact absurd h (by simp)

theorem utf8_decode_go_congr :
    ∀ (f1 : Nat) (l : List Nat) (f2 : Nat), l.length ≤ f1 → l.length ≤ f2 →
      utf8_decode_go f1 l = utf8_decode_go f2 l := by
  intro f1
  induction f1 with
  | zero =>
    intro l f2 h1 _
    have : l = [] := List.eq_nil_of_length_eq_zero (Nat.le_zero.mp h1)
    subst this
    cases f2 <;> rfl
  | succ n ih =>
    intro l f2 h1 h2
    cases l with
    | nil => cases f2 <;> rfl
    | cons b rest =>
      cases f2 with
      | zero => simp at h2
      | succ m =>
        simp only [utf8_decode_go]
        cases hd : utf8_decode1 b rest with
        | none => rfl
        | some v =>
          obtain ⟨cp, r⟩ := v
          dsimp only
          have hr := utf8_decode1_len hd
          simp only [List.length_cons] at h1 h2
          rw [ih r m (by omega) (by omega)]

theorem utf8_decode_strict_cons (b : Nat) (rest : List Nat) :
    utf8_decode_strict (b :: rest) =
      match utf8_decode1 b rest with
      | none => none
      | some (cp, r) => (utf8_decode_strict r).map (fun t => cp :: t) := by
  show utf8_decode_go (rest.length + 1) (b :: rest) = _
  simp only [utf8_decode_go]
  cases hd : utf8_decode1 b rest with
  | none => rfl
  | some v =>
    obtain ⟨cp, r⟩ := v
    dsimp only
    have hr := utf8_decode1_len hd
    rw [utf8_decode_go_congr rest.length r r.length hr (le_refl _)]
    rfl

theorem utf8_decode1_feff {b : Nat} {rest : List Nat} {cp : Nat} {r : List Nat}
    (h : utf8_decode1 b rest = some (cp, r)) :
    (cp = 0xFEFF ↔ b = 0xEF ∧ rest.take 2 = [0xBB, 0xBF]) := by
  unfold utf8_decode1 at h
  split at h
  · rename_i h1
    injection h with h; rw [Prod.mk.injEq] at h; obtain ⟨rfl, -⟩ := h
    constructor
    · intro hc; omega
    · rintro ⟨hb, -⟩; omega
  · rename_i h1
    split at h
    · rename_i h2
      split at h
      · rename_i c1 r2
        split at h
        · rename_i h3
          injection h with h; rw [Prod.mk.injEq] at h; obtain ⟨rfl, -⟩ := h
          constructor
          · intro hc; omega
          · rintro ⟨hb, -⟩; omega
        · exact absurd h (by simp)
      · exact absurd h (by simp)
    · rename_i h2
      split at h
      · rename_i h4
        split at h
        · rename_i c1 c2 r2
          split at h
          · rename_i h5
            injection h with h; rw [Prod.mk.injEq] at h; obtain ⟨rfl, -⟩ := h
            simp only [cont3lo, cont3hi] at h5
            simp only [List.take_succ_cons, List.take_zero, List.cons.injEq, and_true]
            by_cases he0 : b = 0xE0 <;> by_cases hed : b = 0xED <;>
              simp [he0, hed] at h5 <;> omega
          · exact absurd h (by simp)
        · exact absurd h (by simp)
      · rename_i h4
        split at h
        · rename_i h6
          split at h
          · rename_i c1 c2 c3 r2
            split at h
            · rename_i h7
              injection h with h; rw [Prod.mk.injEq] at h; obtain ⟨rfl, -⟩ := h
              simp only [cont4lo, cont4hi] at h7
              constructor
              · intro hc
                exfalso
                by_cases hf0 : b = 0xF0 <;> by_cases hf4 : b = 0xF4 <;>
                  simp [hf0, hf4] at h7 <;> omega
              · rintro ⟨hb, -⟩; omega
            · exact absurd h (by simp)
          · exact absurd h (by simp)
        · exact absurd h (by simp)

theorem utf8_decode_strict_head {bs cps : List Nat}
    (h : utf8_decode_strict bs = some cps) :
    (cps.head? = some 0xFEFF ↔ bs.take 3 = [0xEF, 0xBB, 0xBF]) := by
  cases bs with
  | nil =>
    have : cps = [] := by
      simpa [utf8_decode_strict, utf8_decode_go] using h.symm
    subst this
    simp
  | cons b rest =>
    rw [utf8_decode_strict_cons] at h
    cases hd : utf8_decode1 b rest with
    | none => rw [hd] at h; exact absurd h (by simp)
    | some v =>
      obtain ⟨cp, r⟩ := v
      rw [hd] at h
      simp only [Option.map_eq_some'] at h
      obtain ⟨t, -, rfl⟩ := h
      have hiff := utf8_decode1_feff hd
      simp only [List.head?_cons, Option.some.injEq, List.take_succ_cons, List.cons.injEq]
      constructor
      · intro hc
        have := hiff.mp hc
        exact ⟨by omega, this.2⟩
      · rintro ⟨hb, htk⟩
        exact hiff.mpr ⟨by omega, htk⟩

theorem utf8Encode_take3 (cps : List Nat) :
    ((utf8Encode cps).take 3 = [0xEF, 0xBB, 0xBF]) ↔ cps.head? = some 0xFEFF := by
  cases cps with
  | nil => simp [utf8Encode]
  | cons c t =>
    simp only [utf8Encode, List.flatMap_cons, List.head?_cons, Option.some.injEq]
    unfold utf8EncodeChar
    split
    · rename_i h1
      simp only [List.singleton_append, List.take_succ_cons, List.cons.injEq]
      constructor
      · rintro ⟨hc, -⟩; omega
      · intro hc; omega
    · rename_i h1
      split
      · rename_i h2
        simp only [List.cons_append, List.nil_append, List.take_succ_cons, List.cons.injEq]
        constructor
        · rintro ⟨hc, -⟩; omega
        · intro hc; omega
      · rename_i h2
        split
        · rename_i h3
          simp only [List.cons_append, List.nil_append, List.take_succ_cons,
            List.take_zero, List.cons.injEq]
          constructor
          · rintro ⟨ha, hb, hc, -⟩; omega
          · intro hc
            subst hc
            norm_num
        · rename_i h3
          simp only [List.cons_append, List.nil_append, List.take_succ_cons, List.cons.injEq]
          constructor
          · rintro ⟨hc, -⟩; omega
          · intro hc; omega

/-- C1 (counterexample): a UTF-8 input consisting of two byte-order marks.
The stream decode of convertor.py (`utf-8-sig`) strips only the first BOM;
the second decodes to U+FEFF and is re-encoded, so the written output file
IS a byte-order mark — refuting "the written output file never begins with a
BOM, regardless of whether the input had one". -/
theorem c1_counterexample_double_bom :
    isUtf8Family "utf_8" = true ∧
    Convertor.stream_copy (codec_for (stream_enc "utf_8"))
        [0xEF, 0xBB, 0xBF, 0xEF, 0xBB, 0xBF] =
      some ([0xEF, 0xBB, 0xBF], 6) := by
  constructor
  · rfl
  · rfl

/-- C1 (amended): for every detected encoding in the UTF-8 family, convert
streams through the `utf-8-sig` codec, which strips exactly one leading BOM;
consequently the written bytes begin with a BOM if and only if the input
still begins with an encoded U+FEFF after that single strip (e.g. a
double-BOM input).  In particular, for every input that does not begin with
two BOMs the output never begins with a BOM. -/
theorem c1_bom_strip_amended (enc : String) (bs out : List Nat) (n : Nat)
    (henc : isUtf8Family enc = true)
    (hrun : Convertor.stream_copy (codec_for (stream_enc enc)) bs = some (out, n)) :
    stream_enc enc = "utf-8-sig" ∧
    (out.take 3 = bomBytes ↔ (stripBom bs).take 3 = bomBytes) := by
  have hse : stream_enc enc = "utf-8-sig" := by
    unfold stream_enc
    rw [henc]
    rfl
  refine ⟨hse, ?_⟩
  rw [hse] at hrun
  have hcodec : codec_for "utf-8-sig" = utf8_sig_decode_strict := by
    unfold codec_for
    rw [if_pos rfl]
  rw [hcodec] at hrun
  unfold Convertor.stream_copy at hrun
  cases hd : utf8_sig_decode_strict bs with
  | none => rw [hd] at hrun; exact absurd hrun (by simp)
  | some cps =>
    rw [hd] at hrun
    simp only [nl_translate_read, nl_translate_write, true_or, if_true,
      Option.some.injEq, Prod.mk.injEq] at hrun
    obtain ⟨rfl, -⟩ := hrun
    unfold utf8_sig_decode_strict at hd
    simp only [bomBytes]
    rw [utf8Encode_take3]
    exact utf8_decode_strict_head hd

/-- C2 (code bug): the live module's stream reader (`TextIOWrapper` with
default, strict, error handling) raises `UnicodeDecodeError` on a byte that
is invalid for the declared encoding — here the lone continuation byte 0x80
under (remapped) UTF-8 — instead of replacing it; the threaded prototype's
reader (`errors="replace"`) substitutes U+FFFD and completes, which is the
behaviour the claim describes. -/
theorem c2_strict_decode_raises :
    Convertor.stream_copy (codec_for (stream_enc "utf_8")) [0x80] = none ∧
    ConverterProto.stream_copy utf8_decode_replace [0x80] = ([0xEF, 0xBF, 0xBD], 1) :=
  ⟨rfl, rfl⟩

/-- C6: since both the reader and the writer of the live `_stream_copy` pass
`newline=""`, no newline translation occurs in either direction: the output
is the plain UTF-8 encoding of the decoded text, encoding distributes over
any decomposition of the decoded text, and the CR LF and lone CR sequences
re-encode to exactly the bytes 0x0D 0x0A and 0x0D. -/
theorem c6_newline_passthrough (dec : List Nat → Option (List Nat))
    (bs cps xs mid ys : List Nat)
    (hdec : dec bs = some cps) (hsplit : cps = xs ++ mid ++ ys) :
    Convertor.stream_copy dec bs =
      some (utf8Encode xs ++ utf8Encode mid ++ utf8Encode ys, bs.length) ∧
    utf8Encode [13, 10] = [13, 10] ∧ utf8Encode [13] = [13] := by
  refine ⟨?_, rfl, rfl⟩
  unfold Convertor.stream_copy
  rw [hdec]
  simp only [nl_translate_read, nl_translate_write, true_or, if_true]
  subst hsplit
  simp only [utf8Encode, List.flatMap_append]

/-- C6 witness at a concrete CR LF input. -/
theorem c6_newline_passthrough_witness :
    utf8_decode_strict [0x61, 13, 10, 0x62] = some [0x61, 13, 10, 0x62] ∧
    ([0x61, 13, 10, 0x62] : List Nat) = [0x61] ++ [13, 10] ++ [0x62] ∧
    (Convertor.stream_copy utf8_decode_strict [0x61, 13, 10, 0x62] =
        some (utf8Encode [0x61] ++ utf8Encode [13, 10] ++ utf8Encode [0x62], 4) ∧
      utf8Encode [13, 10] = [13, 10] ∧ utf8Encode [13] = [13]) :=
  ⟨rfl, rfl,
    c6_newline_passthrough utf8_decode_strict [0x61, 13, 10, 0x62]
      [0x61, 13, 10, 0x62] [0x61] [13, 10] [0x62] rfl rfl⟩

/-- Terminal guarantee used by C7: the `latin-1` fallback decodes every byte
sequence. -/
theorem decodes_latin1 (s : List Nat) : ConverterProto.decodes "latin-1" s = true := rfl

/-- C7: under the always-succeed policy (converter.py), when the classifier
yields no usable match, detection returns the first encoding of the ordered
fallback list `utf-8-sig, utf-8, cp1251, latin-1` whose strict decode of the
sample succeeds, at confidence 0.8; every earlier list entry fails on the
sample; and since `latin-1` always decodes, such an encoding always exists —
detection never fails (the 0.5 terminal return is unreachable). -/
theorem c7_fallback_detection (classify : List Nat → Option (String × ℚ))
    (sample : List Nat) (hnone : classify sample = none) :
    ConverterProto.decodes "latin-1" sample = true ∧
    ∃ e, ConverterProto.detect_encoding classify sample = (e, 4/5) ∧
      ConverterProto.decodes e sample = true ∧
      ∃ pre post, ConverterProto.fallback_encodings = pre ++ e :: post ∧
        ∀ e' ∈ pre, ConverterProto.decodes e' sample = false := by
  refine ⟨rfl, ?_⟩
  unfold ConverterProto.detect_encoding
  rw [hnone]
  by_cases d1 : ConverterProto.decodes "utf-8-sig" sample = true
  · refine ⟨"utf-8-sig", ?_, d1, [], ["utf-8", "cp1251", "latin-1"], rfl, by simp⟩
    simp only [ConverterProto.fallback_encodings, List.find?, d1]
  · rw [Bool.not_eq_true] at d1
    by_cases d2 : ConverterProto.decodes "utf-8" sample = true
    · refine ⟨"utf-8", ?_, d2, ["utf-8-sig"], ["cp1251", "latin-1"], rfl, ?_⟩
      · simp only [ConverterProto.fallback_encodings, List.find?, d1, d2]
      · intro e' he'
        simp only [List.mem_singleton] at he'
        subst he'
        exact d1
    · rw [Bool.not_eq_true] at d2
      by_cases d3 : ConverterProto.decodes "cp1251" sample = true
      · refine ⟨"cp1251", ?_, d3, ["utf-8-sig", "utf-8"], ["latin-1"], rfl, ?_⟩
        · simp only [ConverterProto.fallback_encodings, List.find?, d1, d2, d3]
        · intro e' he'
          simp only [List.mem_cons, List.not_mem_nil, or_false] at he'
          rcases he' with rfl | rfl
          · exact d1
          · exact d2
      · rw [Bool.not_eq_true] at d3
        refine ⟨"latin-1", ?_, rfl, ["utf-8-sig", "utf-8", "cp1251"], [], rfl, ?_⟩
        · simp only [ConverterProto.fallback_encodings, List.find?, d1, d2, d3,
            decodes_latin1]
        · intro e' he'
          simp only [List.mem_cons, List.not_mem_nil, or_false] at he'
          rcases he' with rfl | rfl | rfl
          · exact d1
          · exact d2
          · exact d3

/-- C7 witness: an empty classifier over an ASCII sample selects `utf-8-sig`
at confidence 0.8. -/
theorem c7_fallback_detection_witness :
    (fun _ : List Nat => (none : Option (String × ℚ))) [0x61] = none ∧
    (ConverterProto.decodes "latin-1" [0x61] = true ∧
      ∃ e, ConverterProto.detect_encoding (fun _ => none) [0x61] = (e, 4/5) ∧
        ConverterProto.decodes e [0x61] = true ∧
        ∃ pre post, ConverterProto.fallback_encodings = pre ++ e :: post ∧
          ∀ e' ∈ pre, ConverterProto.decodes e' [0x61] = false) :=
  ⟨rfl, c7_fallback_detection (fun _ => none) [0x61] rfl⟩

/-- C3: when the input passes its own precondition checks (it exists and has
a `.txt` extension — those are checked first and raise `NotFound` or
`UnsupportedType` otherwise) and the resolved output path already exists
while `overwrite` is false, `convert` fails with `AlreadyExists`, performs no
data reads or writes (empty event trace), and returns the filesystem
unchanged, so the existing output file is byte-for-byte untouched. -/
theorem c3_already_exists_no_side_effects (classify : Convertor.Classifier)
    (fs : FS) (input output : Pth)
    (hin : isFile fs input = true) (hsuf : suffixLower input = ".txt")
    (hout : pexists fs (Convertor.make_output_path input output false fs) = true) :
    Convertor.convert classify fs input output false =
      (.error (.alreadyExists,
        "Output exists: " ++ pathStr (Convertor.make_output_path input output false fs)),
       fs, []) := by
  unfold Convertor.convert
  simp only [hin, hsuf, hout, Bool.not_true, Bool.false_eq_true, if_false,
    beq_self_eq_true, Bool.not_false, Bool.and_true, if_true]

/-- C3 witness: a concrete store where the output already exists. -/
theorem c3_already_exists_no_side_effects_witness :
    isFile ⟨[(["a.txt"], [0x61]), (["out.txt"], [0x62])], []⟩ ["a.txt"] = true ∧
    suffixLower ["a.txt"] = ".txt" ∧
    pexists ⟨[(["a.txt"], [0x61]), (["out.txt"], [0x62])], []⟩
      (Convertor.make_output_path ["a.txt"] ["out.txt"] false
        ⟨[(["a.txt"], [0x61]), (["out.txt"], [0x62])], []⟩) = true ∧
    Convertor.convert (fun _ => none) ⟨[(["a.txt"], [0x61]), (["out.txt"], [0x62])], []⟩
        ["a.txt"] ["out.txt"] false =
      (.error (.alreadyExists,
        "Output exists: " ++ pathStr (Convertor.make_output_path ["a.txt"] ["out.txt"] false
          ⟨[(["a.txt"], [0x61]), (["out.txt"], [0x62])], []⟩)),
       ⟨[(["a.txt"], [0x61]), (["out.txt"], [0x62])], []⟩, []) :=
  ⟨rfl, rfl, rfl,
    c3_already_exists_no_side_effects (fun _ => none)
      ⟨[(["a.txt"], [0x61]), (["out.txt"], [0x62])], []⟩ ["a.txt"] ["out.txt"] rfl rfl rfl⟩

/-- C8 (counterexample): a batch output directory whose final component has
a dot-extension (`out.d`) is NOT joined with the input basename; the code
replaces it by its parent, so the resolved path is `f.txt`, not
`out.d/f.txt` — refuting "the resolved output path is the batch output
directory joined with the input file's base name" for every output
directory. -/
theorem c8_counterexample_suffixed_outdir :
    Convertor.make_output_path ["data", "f.txt"] ["out.d"] true ⟨[], []⟩ = ["f.txt"] ∧
    (["f.txt"] : Pth) ≠ ["out.d", "f.txt"] :=
  ⟨rfl, by decide⟩

/-- C8 (amended): for every candidate file, whenever the batch output
directory's final component has no dot-extension (the normal case for a
directory name), the resolved output path is `outputDir/<basename>`;
otherwise the code joins the basename to the output directory's parent
instead. -/
theorem c8_output_path_amended (input outDir : Pth) (fs : FS)
    (hsuf : psuffix outDir = "") :
    Convertor.make_output_path input outDir true fs = outDir ++ [pname input] := by
  unfold Convertor.make_output_path
  rw [if_pos rfl, if_pos hsuf]

/-- C8 witness at the normal extensionless output directory. -/
theorem c8_output_path_amended_witness :
    psuffix ["out"] = "" ∧
    Convertor.make_output_path ["data", "f.txt"] ["out"] true ⟨[], []⟩ =
      ["out"] ++ [pname ["data", "f.txt"]] :=
  ⟨rfl, c8_output_path_amended ["data", "f.txt"] ["out"] ⟨[], []⟩ rfl⟩

/-- C9: the semaphore value `max(1, workers)` is at least 1 for every worker
count, including zero and negatives (so `Semaphore` construction never gets
an invalid value and the batch still runs), and in every state the gated
pool can reach, at most that many conversions are in flight at once. -/
theorem c9_concurrency_floor (w : Int) (n : Nat) (s : GateState)
    (hreach : GateReach (Convertor.sem_limit w).toNat n s) :
    1 ≤ Convertor.sem_limit w ∧ s.running ≤ (Convertor.sem_limit w).toNat := by
  refine ⟨le_max_left 1 w, ?_⟩
  induction hreach with
  | init => simp
  | step hs hstep ih =>
    cases hstep with
    | start w' r d hr => exact hr
    | finish w' r d => simp only at ih ⊢; omega

/-- C9 witness: a negative worker count still yields limit 1, satisfied by
the initial state of a two-file batch. -/
theorem c9_concurrency_floor_witness :
    1 ≤ Convertor.sem_limit (-3) ∧
      (GateState.mk 2 0 0).running ≤ (Convertor.sem_limit (-3)).toNat :=
  c9_concurrency_floor (-3) 2 ⟨2, 0, 0⟩ GateReach.init

/-- C10: if discovery succeeds but yields no candidates, `batch_convert`
raises `NoInputFiles` and returns the filesystem unchanged — in particular
the output directory (checked here to not pre-exist) is still uncreated,
because the empty-candidate check precedes `out_dir.mkdir`. -/
theorem c10_no_inputs_before_mkdir (classify : Convertor.Classifier) (fs : FS)
    (root outDir : Pth) (ow : Bool) (w : Int) (rec : Bool)
    (hc : Convertor.collect_txt_files fs root rec = .ok [])
    (hdir : isDir fs outDir = false) :
    Convertor.batch_convert classify fs root outDir ow w rec =
      (.error (.noInputFiles, "No .txt files found for batch"), fs) ∧
    isDir (Convertor.batch_convert classify fs root outDir ow w rec).2 outDir = false := by
  have h1 : Convertor.batch_convert classify fs root outDir ow w rec =
      (.error (.noInputFiles, "No .txt files found for batch"), fs) := by
    unfold Convertor.batch_convert
    rw [hc]
    rfl
  exact ⟨h1, by rw [h1]; exact hdir⟩

/-- C10 witness: an empty directory as batch root, output directory absent. -/
theorem c10_no_inputs_before_mkdir_witness :
    Convertor.collect_txt_files ⟨[], [["d"]]⟩ ["d"] true = .ok [] ∧
    isDir ⟨[], [["d"]]⟩ ["out"] = false ∧
    (Convertor.batch_convert (fun _ => none) ⟨[], [["d"]]⟩ ["d"] ["out"] false 4 true =
        (.error (.noInputFiles, "No .txt files found for batch"), ⟨[], [["d"]]⟩) ∧
      isDir (Convertor.batch_convert (fun _ => none) ⟨[], [["d"]]⟩ ["d"] ["out"] false 4 true).2
        ["out"] = false) :=
  ⟨rfl, rfl,
    c10_no_inputs_before_mkdir (fun _ => none) ⟨[], [["d"]]⟩ ["d"] ["out"] false 4 true rfl rfl⟩

/-- C1 witness: a single-BOM UTF-8 input loses its BOM. -/
theorem c1_bom_strip_amended_witness :
    isUtf8Family "utf_8" = true ∧
    Convertor.stream_copy (codec_for (stream_enc "utf_8")) [0xEF, 0xBB, 0xBF, 0x61] =
      some ([0x61], 4) ∧
    (stream_enc "utf_8" = "utf-8-sig" ∧
      (([0x61] : List Nat).take 3 = bomBytes ↔
        (stripBom [0xEF, 0xBB, 0xBF, 0x61]).take 3 = bomBytes)) :=
  ⟨rfl, rfl, c1_bom_strip_amended "utf_8" [0xEF, 0xBB, 0xBF, 0x61] [0x61] 4 rfl rfl⟩

/-! ### Helper lemmas for the batch driver -/

theorem run_one_shape (classify : Convertor.Classifier) (fs : FS) (outDir : Pth)
    (ow : Bool) (p : Pth) :
    ((Convertor.run_one classify fs outDir ow p).1.ok = true ∧
      (Convertor.run_one classify fs outDir ow p).1.error = none ∧
      ∃ rep, (Convertor.run_one classify fs outDir ow p).1.report = some rep) ∨
    ((Convertor.run_one classify fs outDir ow p).1.ok = false ∧
      (Convertor.run_one classify fs outDir ow p).1.report = none ∧
      ∃ s, (Convertor.run_one classify fs outDir ow p).1.error = some s) := by
  unfold Convertor.run_one
  rcases Convertor.convert classify fs p (Convertor.make_output_path p outDir true fs) ow
    with ⟨res, fs', ev⟩
  cases res with
  | ok rep =>
    left
    exact ⟨rfl, rfl, rep, rfl⟩
  | error e =>
    rcases e with ⟨k, msg⟩
    right
    exact ⟨rfl, rfl, msg, rfl⟩

theorem run_batch_spec (classify : Convertor.Classifier) (outDir : Pth) (ow : Bool) :
    ∀ (ps : List Pth) (fs : FS),
      (Convertor.run_batch classify outDir ow ps fs).1.length = ps.length ∧
      ∀ r ∈ (Convertor.run_batch classify outDir ow ps fs).1,
        (r.ok = true ∧ r.error = none ∧ ∃ rep, r.report = some rep) ∨
        (r.ok = false ∧ r.report = none ∧ ∃ s, r.error = some s) := by
  intro ps
  induction ps with
  | nil =>
    intro fs
    exact ⟨rfl, by intro r hr; exact absurd hr (List.not_mem_nil r)⟩
  | cons p ps ih =>
    intro fs
    simp only [Convertor.run_batch]
    rcases h1 : Convertor.run_one classify fs outDir ow p with ⟨r, fs'⟩
    rcases h2 : Convertor.run_batch classify outDir ow ps fs' with ⟨rs, fs''⟩
    have hshape := run_one_shape classify fs outDir ow p
    rw [h1] at hshape
    have hrec := ih fs'
    rw [h2] at hrec
    constructor
    · simpa using hrec.1
    · intro x hx
      simp only [List.mem_cons] at hx
      rcases hx with rfl | hx
      · exact hshape
      · exact hrec.2 x hx

/-- C4: whenever discovery yields a nonempty candidate list, the batch
returns normally with exactly one `BatchItemResult` per candidate; every
result either succeeded (with a report and no error) or failed (with a
textual error description and no report) — per-file errors are recorded, not
raised, so one failing file aborts neither its siblings nor the batch. -/
theorem c4_batch_isolation (classify : Convertor.Classifier) (fs : FS)
    (root outDir : Pth) (ow : Bool) (w : Int) (rec : Bool) (files : List Pth)
    (hc : Convertor.collect_txt_files fs root rec = .ok files) (hne : files ≠ []) :
    ∃ rs fs2, Convertor.batch_convert classify fs root outDir ow w rec = (.ok rs, fs2) ∧
      rs.length = files.length ∧
      ∀ r ∈ rs, (r.ok = true ∧ r.error = none ∧ ∃ rep, r.report = some rep) ∨
        (r.ok = false ∧ r.report = none ∧ ∃ s, r.error = some s) := by
  unfold Convertor.batch_convert
  rw [hc]
  have hie : files.isEmpty = false := by
    cases files with
    | nil => exact absurd rfl hne
    | cons a l => rfl
  dsimp only
  rw [hie]
  simp only [Bool.false_eq_true, if_false]
  rcases h2 : Convertor.run_batch classify outDir ow files (mkdirp fs outDir) with ⟨rs, fs2⟩
  have hrec := run_batch_spec classify outDir ow files (mkdirp fs outDir)
  rw [h2] at hrec
  exact ⟨rs, fs2, by simp [h2], hrec.1, hrec.2⟩

/-- C4 witness: a two-file batch where one file's bytes are undecodable; the
batch still returns two results. -/
theorem c4_batch_isolation_witness :
    Convertor.collect_txt_files
        ⟨[(["d", "a.txt"], [0x61]), (["d", "b.txt"], [0x80])], [["d"]]⟩ ["d"] true =
      .ok [["d", "a.txt"], ["d", "b.txt"]] ∧
    ([["d", "a.txt"], ["d", "b.txt"]] : List Pth) ≠ [] ∧
    (∃ rs fs2,
      Convertor.batch_convert (fun _ => some ("utf_8", 0))
          ⟨[(["d", "a.txt"], [0x61]), (["d", "b.txt"], [0x80])], [["d"]]⟩
          ["d"] ["out"] false 4 true = (.ok rs, fs2) ∧
      rs.length = ([["d", "a.txt"], ["d", "b.txt"]] : List Pth).length ∧
      ∀ r ∈ rs, (r.ok = true ∧ r.error = none ∧ ∃ rep, r.report = some rep) ∨
        (r.ok = false ∧ r.report = none ∧ ∃ s, r.error = some s)) :=
  ⟨rfl, by decide,
    c4_batch_isolation (fun _ => some ("utf_8", 0))
      ⟨[(["d", "a.txt"], [0x61]), (["d", "b.txt"], [0x80])], [["d"]]⟩
      ["d"] ["out"] false 4 true [["d", "a.txt"], ["d", "b.txt"]] rfl (by decide)⟩

/-- C5 (counterexample): `A.TXT` is a regular file directly under the
directory root and its extension matches `.txt` case-insensitively, yet
discovery returns the empty candidate list, because `glob("**/*.txt")` is
case-sensitive on POSIX — refuting "selects exactly the regular files whose
`.txt` extension matches case-insensitively". -/
theorem c5_counterexample_upper_txt :
    isFile ⟨[(["d", "A.TXT"], [0x41])], [["d"]]⟩ ["d", "A.TXT"] = true ∧
    suffixLower ["d", "A.TXT"] = ".txt" ∧
    isDir ⟨[(["d", "A.TXT"], [0x41])], [["d"]]⟩ ["d"] = true ∧
    Convertor.collect_txt_files ⟨[(["d", "A.TXT"], [0x41])], [["d"]]⟩ ["d"] true = .ok [] :=
  ⟨rfl, rfl, rfl, rfl⟩

theorem isFile_iff_exists (fs : FS) (p : Pth) :
    isFile fs p = true ↔ ∃ c, (p, c) ∈ fs.files := by
  unfold isFile lookupFile
  cases hf : fs.files.find? (fun e => e.1 == p) with
  | none =>
    simp only [Option.map_none', Option.isSome_none, Bool.false_eq_true, false_iff]
    rintro ⟨c, hc⟩
    have := List.find?_eq_none.mp hf (p, c) hc
    simp at this
  | some e =>
    simp only [Option.map_some', Option.isSome_some, true_iff]
    have hmem := List.mem_of_find?_eq_some hf
    have hbeq := List.find?_some hf
    have : e.1 = p := by simpa using hbeq
    exact ⟨e.2, by rw [← this]; exact hmem⟩

theorem mem_collect_dir (fs : FS) (root p : Pth) (rec : Bool) :
    (p ∈ (fs.files.filter (fun e => Convertor.glob_txt_match root rec e.1)).map (·.1)) ↔
    (isFile fs p = true ∧ Convertor.glob_txt_match root rec p = true) := by
  rw [List.mem_map]
  constructor
  · rintro ⟨⟨q, c⟩, hmem, rfl⟩
    rw [List.mem_filter] at hmem
    exact ⟨(isFile_iff_exists fs q).mpr ⟨c, hmem.1⟩, hmem.2⟩
  · rintro ⟨hf, hg⟩
    obtain ⟨c, hc⟩ := (isFile_iff_exists fs p).mp hf
    exact ⟨(p, c), List.mem_filter.mpr ⟨hc, hg⟩, rfl⟩

theorem glob_txt_match_true_iff (root p : Pth) :
    Convertor.glob_txt_match root true p = true ↔
      strEndsWith (pname p) ".txt" = true ∧
      root.isPrefixOf p = true ∧ root.length < p.length := by
  unfold Convertor.glob_txt_match
  simp only [eq_self_iff_true, if_true, Bool.and_eq_true, decide_eq_true_eq]
  constructor
  · rintro ⟨⟨hp, hl⟩, he⟩
    exact ⟨he, hp, hl⟩
  · rintro ⟨he, hp, hl⟩
    exact ⟨⟨hp, hl⟩, he⟩

theorem glob_txt_match_false_iff (root p : Pth) :
    Convertor.glob_txt_match root false p = true ↔
      strEndsWith (pname p) ".txt" = true ∧ p ≠ [] ∧ p.dropLast = root := by
  unfold Convertor.glob_txt_match
  cases p with
  | nil => simp
  | cons a l =>
    simp only [Bool.false_eq_true, if_false, List.isEmpty_cons, Bool.not_false,
      Bool.true_and, Bool.and_eq_true, beq_iff_eq]
    constructor
    · rintro ⟨hdl, he⟩
      exact ⟨he, by simp, hdl⟩
    · rintro ⟨he, -, hdl⟩
      exact ⟨hdl, he⟩

/-- C5 (amended): for a directory root, discovery selects exactly the
regular files whose NAME ends in the lowercase string `.txt`
(case-sensitively, so `.TXT` files are excluded, unlike the case-insensitive
check applied to a file root), at any depth below the root when `recursive`
is true and only among direct children otherwise. -/
theorem c5_discovery_amended (fs : FS) (root p : Pth) (rec : Bool)
    (hroot : pexists fs root = true) (hnf : isFile fs root = false) :
    ∃ files, Convertor.collect_txt_files fs root rec = .ok files ∧
      (p ∈ files ↔ isFile fs p = true ∧ strEndsWith (pname p) ".txt" = true ∧
        (if rec then root.isPrefixOf p = true ∧ root.length < p.length
         else p ≠ [] ∧ p.dropLast = root)) := by
  have hcol : Convertor.collect_txt_files fs root rec =
      .ok ((fs.files.filter (fun e => Convertor.glob_txt_match root rec e.1)).map (·.1)) := by
    unfold Convertor.collect_txt_files
    rw [hroot, hnf]
    rfl
  refine ⟨_, hcol, ?_⟩
  rw [mem_collect_dir]
  cases rec with
  | true =>
    rw [glob_txt_match_true_iff]
    simp only [eq_self_iff_true, if_true]
  | false =>
    rw [glob_txt_match_false_iff]
    simp only [Bool.false_eq_true, if_false]

/-- C5 witness: a lowercase `.txt` file below the root is selected under
recursive discovery. -/
theorem c5_discovery_amended_witness :
    pexists ⟨[(["d", "s", "a.txt"], [0x61])], [["d"], ["d", "s"]]⟩ ["d"] = true ∧
    isFile ⟨[(["d", "s", "a.txt"], [0x61])], [["d"], ["d", "s"]]⟩ ["d"] = false ∧
    (∃ files,
      Convertor.collect_txt_files ⟨[(["d", "s", "a.txt"], [0x61])], [["d"], ["d", "s"]]⟩
          ["d"] true = .ok files ∧
      (["d", "s", "a.txt"] ∈ files ↔
        isFile ⟨[(["d", "s", "a.txt"], [0x61])], [["d"], ["d", "s"]]⟩ ["d", "s", "a.txt"] = true ∧
        strEndsWith (pname ["d", "s", "a.txt"]) ".txt" = true ∧
        (if true then (["d"] : Pth).isPrefixOf ["d", "s", "a.txt"] = true ∧
            (["d"] : Pth).length < (["d", "s", "a.txt"] : Pth).length
         else ["d", "s", "a.txt"] ≠ [] ∧ (["d", "s", "a.txt"] : Pth).dropLast = ["d"]))) :=
  ⟨rfl, rfl,
    c5_discovery_amended ⟨[(["d", "s", "a.txt"], [0x61])], [["d"], ["d", "s"]]⟩
      ["d"] ["d", "s", "a.txt"] true rfl rfl⟩
